import Mathlib

/-!
Shallow embedding of `weekly_report.py`: a pipeline that computes the
previous calendar week's boundaries in a fixed UTC+9 offset (KST),
fetches club activities by pagination, aggregates per-athlete
distance/elevation/count over the window, sorts a leaderboard, formats a
text report, and posts it to the BAND messaging API.

Modelling conventions:
* A KST datetime is its local clock reading in microseconds since
  0001-01-01 00:00:00 (which is a Monday in the proleptic Gregorian
  calendar, matching Python's `datetime.weekday` convention where
  Monday = 0).  An activity's `start_date` is the corresponding UTC
  clock reading; `to_kst` models `datetime.fromisoformat` (after the
  `"Z" -> "+00:00"` rewrite, which preserves the instant) followed by
  `astimezone(KST)`, i.e. adding the fixed 9-hour offset.
* Python floats are modelled as rationals; where a property depends on
  the doubles' rounding behaviour itself, `b64Round`/`b64Add` model
  correctly rounded binary64 arithmetic on fixed-point representatives.
  Dictionaries with optional fields become structures with `Option`
  fields, and `dict.get` defaults become `Option.getD`.
* The Python `dict` used for per-athlete aggregation is modelled as an
  insertion-ordered association list (Python dicts preserve insertion
  order), and `list.sort(key=..., reverse=True)` as a stable merge
  sort with the corresponding "greater or equal" boolean relation.
* Network effects are modelled functionally: the paginated fetch takes
  the server as a function from page number to batch and additionally
  returns the log of issued page requests; the BAND post takes the
  response (final HTTP status plus parsed JSON) and returns success or
  the raised error.  `requests.Response.raise_for_status` raises
  exactly for statuses in [400, 600).
-/

namespace WeeklyReport

/-- Microseconds per day. -/
def usPerDay : Int := 86400000000

/-- Microseconds per week. -/
def usPerWeek : Int := 7 * usPerDay

/-- The fixed UTC+9 offset (`KST = timezone(timedelta(hours=9))`) in microseconds. -/
def kstOffset : Int := 9 * 3600 * 1000000

/-- `datetime.weekday()` of a KST clock reading: Monday = 0, ..., Sunday = 6
(the epoch 0001-01-01 is a Monday). -/
def weekdayOf (t : Int) : Int := (t / usPerDay) % 7

/-- `.replace(hour=0, minute=0, second=0, microsecond=0)`: zero out the
time-of-day of a clock reading. -/
def zeroTime (t : Int) : Int := (t / usPerDay) * usPerDay

/-- `last_week_range_kst`: subtract `now.weekday()` days from `now`, zero the
time-of-day to obtain this week's Monday midnight, and return the half-open
week `[this_monday - 7 days, this_monday)`. -/
def last_week_range_kst (now_kst : Int) : Int × Int :=
  let this_monday := zeroTime (now_kst - weekdayOf now_kst * usPerDay)
  (this_monday - usPerWeek, this_monday)

/-- `to_kst`: parse an ISO UTC instant (the `"Z"`-suffix rewrite to `"+00:00"`
keeps the instant unchanged) and convert it to the KST local clock by adding
the fixed 9-hour offset. -/
def to_kst (utcMicros : Int) : Int := utcMicros + kstOffset

/-- Proleptic Gregorian date `(year, month, day)` of a day count, where day 0
is 0001-01-01.  Standard era-based civil-from-days computation, used to model
`strftime("%m/%d")`. -/
def civilFromDays (d : Nat) : Nat × Nat × Nat :=
  let z := d + 306
  let era := z / 146097
  let doe := z % 146097
  let yoe := (doe - doe / 1460 + doe / 36524 - doe / 146096) / 365
  let y := yoe + era * 400
  let doy := doe - (365 * yoe + yoe / 4 - yoe / 100)
  let mp := (5 * doy + 2) / 153
  let dd := doy - (153 * mp + 2) / 5 + 1
  let m := if mp < 10 then mp + 3 else mp - 9
  (if m ≤ 2 then y + 1 else y, m, dd)

/-- Zero-padded two-digit rendering of a month or day number. -/
def pad2 (n : Nat) : String :=
  if n < 10 then ("0" ++ toString n) else toString n

/-- `strftime("%m/%d")` of a KST clock reading. -/
def fmtMMDD (t : Int) : String :=
  let c := civilFromDays (t / usPerDay).toNat
  pad2 c.2.1 ++ "/" ++ pad2 c.2.2

/-- The Korean single-character weekday abbreviation of the actual weekday of
a KST clock reading (Monday = 월, ..., Sunday = 일). -/
def weekdayAbbrev (t : Int) : String :=
  match (weekdayOf t).toNat with
  | 0 => "월"
  | 1 => "화"
  | 2 => "수"
  | 3 => "목"
  | 4 => "금"
  | 5 => "토"
  | _ => "일"

/-- The `athlete` sub-object of an activity record; every field may be absent. -/
structure AthleteObj where
  id : Option Int
  firstname : Option String
  lastname : Option String
deriving DecidableEq

/-- One raw activity record: `start_date` is the UTC instant in microseconds,
`athlete` may be absent (then `a.get("athlete", {})` yields `{}`), and
`distance` / `total_elevation_gain` default to `0.0` when absent. -/
structure Activity where
  start_date : Int
  athlete : Option AthleteObj
  distance : Option ℚ
  total_elevation_gain : Option ℚ
deriving DecidableEq

/-- A per-athlete aggregate: display name, summed meters of distance and
elevation, and the ride count.  `dist_m` and `elev_m` sum exactly in `ℚ`,
idealizing the program's IEEE-double `+=` accumulation; `b64Add` below models
the double rounding itself for properties that depend on it. -/
structure Agg where
  name : String
  dist_m : ℚ
  elev_m : ℚ
  rides : Nat
deriving DecidableEq

/-- One leaderboard row: name, distance in km, elevation in m, ride count. -/
structure Row where
  name : String
  km : ℚ
  elev : ℚ
  rides : Nat
deriving DecidableEq

/-- `a.get("athlete", {}).get("id")`: the grouping key, `none` when the
athlete object or its id field is missing. -/
def athleteKey (a : Activity) : Option Int :=
  match a.athlete with
  | none => none
  | some ath => ath.id

/-- Python `str` of the optional athlete id (`str(None) = "None"`). -/
def optIdRepr : Option Int → String
  | none => "None"
  | some i => toString i

/-- `(firstname + " " + lastname).strip()`, the trimmed concatenation of the
(possibly defaulted) name fields. -/
def rawNameOf (a : Activity) : String :=
  let fn := match a.athlete with
    | none => ""
    | some ath => ath.firstname.getD ""
  let ln := match a.athlete with
    | none => ""
    | some ath => ath.lastname.getD ""
  (fn ++ " " ++ ln).trim

/-- `(firstname + " " + lastname).strip() or f"athlete_{athlete_id}"`: the
empty string is falsy, so an empty trimmed name falls back to the id form. -/
def athleteDisplayName (a : Activity) : String :=
  if rawNameOf a = "" then ("athlete_" ++ optIdRepr (athleteKey a)) else rawNameOf a

/-- `float(a.get("distance", 0.0))`. -/
def distOf (a : Activity) : ℚ := a.distance.getD 0

/-- `float(a.get("total_elevation_gain", 0.0))`. -/
def elevOf (a : Activity) : ℚ := a.total_elevation_gain.getD 0

/-- The window test `start_kst <= dt < end_kst` on the converted start time. -/
def inWindow (s e : Int) (a : Activity) : Bool :=
  decide (s ≤ to_kst a.start_date ∧ to_kst a.start_date < e)

/-- Lookup in the insertion-ordered association list modelling `by_athlete`. -/
def lookupA : List (Option Int × Agg) → Option Int → Option Agg
  | [], _ => none
  | (k, v) :: rest, k' => if k = k' then some v else lookupA rest k'

/-- In-place value update of an existing key, preserving insertion order. -/
def updateA : List (Option Int × Agg) → Option Int → Agg → List (Option Int × Agg)
  | [], _, _ => []
  | (k, v) :: rest, k', w =>
      if k = k' then (k, w) :: rest else (k, v) :: updateA rest k' w

/-- One iteration of the `for a in activities` loop of `build_leaderboard`:
skip the activity unless its converted start time is in the window, otherwise
create the athlete's entry on first sight (capturing the display name) and add
the activity's distance, elevation and one ride. -/
def aggStep (s e : Int) (m : List (Option Int × Agg)) (a : Activity) :
    List (Option Int × Agg) :=
  if inWindow s e a then
    let k := athleteKey a
    match lookupA m k with
    | none => m ++ [(k, ⟨athleteDisplayName a, distOf a, elevOf a, 1⟩)]
    | some v => updateA m k ⟨v.name, v.dist_m + distOf a, v.elev_m + elevOf a, v.rides + 1⟩
  else m

/-- The `by_athlete` dictionary after folding the whole activity list. -/
def aggregate (acts : List Activity) (s e : Int) : List (Option Int × Agg) :=
  acts.foldl (aggStep s e) []

/-- Projection of an aggregate into a row (`km = dist_m / 1000.0`). -/
def rowOfAgg (v : Agg) : Row := ⟨v.name, v.dist_m / 1000, v.elev_m, v.rides⟩

/-- The boolean "may come before" relation of
`rows.sort(key=lambda x: (x["km"], x["elev"]), reverse=True)`:
descending lexicographic comparison of `(km, elev)`. -/
def rowLe (r1 r2 : Row) : Bool :=
  decide (r2.km < r1.km) || (decide (r1.km = r2.km) && decide (r2.elev ≤ r1.elev))

/-- `build_leaderboard`: aggregate per athlete over the window, project the
aggregates in dictionary (insertion) order, and stable-sort descending by the
composite key `(km, elev)`. -/
def build_leaderboard (acts : List Activity) (s e : Int) : List Row :=
  ((aggregate acts s e).map (fun p => rowOfAgg p.2)).mergeSort rowLe

/-- The in-window activities of key `k`, in input order: exactly the
activities whose contributions reach the aggregate of `k`. -/
def contrib (s e : Int) (k : Option Int) (acts : List Activity) : List Activity :=
  acts.filter (fun a => inWindow s e a && decide (athleteKey a = k))

/-- The observable per-athlete sums: distance, elevation and ride count at a
key (`none` when the key has no aggregate). -/
def statsAt (s e : Int) (acts : List Activity) (k : Option Int) :
    Option (ℚ × ℚ × Nat) :=
  (lookupA (aggregate acts s e) k).map fun v => (v.dist_m, v.elev_m, v.rides)

/-- Number of binary digits of `n` (0 for 0), by fuel recursion. -/
def bitLenAux : Nat → Nat → Nat
  | 0, _ => 0
  | fuel + 1, n => if n = 0 then 0 else bitLenAux fuel (n / 2) + 1

/-- Binary length: `bitLen n = ⌊log₂ n⌋ + 1` for `n ≥ 1`. -/
def bitLen (n : Nat) : Nat := bitLenAux n n

/-- Round `v` to the nearest multiple of `2 ^ s`, ties to the even multiple
(floor division keeps the remainder in `[0, 2^s)`, so this is correct for
negative `v` as well). -/
def roundShift (v : Int) (s : Nat) : Int :=
  let d : Int := 2 ^ s
  let q := v / d
  let r := v % d
  if 2 * r < d then q * d
  else if d < 2 * r then (q + 1) * d
  else if q % 2 = 0 then q * d else (q + 1) * d

/-- IEEE-754 binary64 rounding (round to nearest, ties to even) on fixed-point
representatives: interpret `v` as the real value `v · 2^u` for any fixed unit
`2^u` with `u ≥ -1074`.  A value whose integer part in that unit has at most
53 binary digits is exactly representable; otherwise it is rounded to a
53-bit significand.  Overflow to infinity is outside the modelled range. -/
def b64Round (v : Int) : Int :=
  let L := bitLen v.natAbs
  if L ≤ 53 then v else roundShift v (L - 53)

/-- Correctly rounded binary64 addition on fixed-point representatives: the
exact sum of two representable values, rounded.  This is the `+` the source's
`by_athlete[...]["dist_m"] += dist_m` performs on Python floats. -/
def b64Add (x y : Int) : Int := b64Round (x + y)

/-- The program's accumulation order for one athlete's metric, replayed with
binary64 addition: `dist_m` starts at `0.0` and each contributing activity's
value is added in input order. -/
def b64Sum (vs : List Int) : Int := vs.foldl b64Add 0

/-- The fixed-point representative of an activity's distance, for activities
whose distance is a whole number of units (denominator 1): such a double's
representative in whole units is exactly the numerator. -/
def distUnits (a : Activity) : Int := (distOf a).num

/-- First activity of the float-reassociation input: distance `2^53` m. -/
def actF1 : Activity := ⟨0, some ⟨some 1, none, none⟩, some 9007199254740992, none⟩

/-- Second activity of the float-reassociation input: distance 1 m. -/
def actF2 : Activity := ⟨0, some ⟨some 1, none, none⟩, some 1, none⟩

/-- Third activity of the float-reassociation input: distance 1 m. -/
def actF3 : Activity := ⟨0, some ⟨some 1, none, none⟩, some 1, none⟩

/-- Round a rational to the nearest integer, ties to even (the rounding used
by Python's fixed-point float formatting, here applied to the exact value). -/
def rhe (q : ℚ) : Int :=
  let fl : Int := q.num / (q.den : Int)
  let fr : ℚ := q - (fl : ℚ)
  if fr < 1 / 2 then fl
  else if 1 / 2 < fr then fl + 1
  else if fl % 2 = 0 then fl else fl + 1

/-- The `{x:.0f}` format: nearest integer, rendered in decimal. -/
def fmt0 (q : ℚ) : String := toString (rhe q)

/-- The `{x:.1f}` format: one fixed decimal digit. -/
def fmt1 (q : ℚ) : String :=
  let n : Int := rhe (q * 10)
  let m : Nat := n.natAbs
  let core := toString (m / 10) ++ "." ++ toString (m % 10)
  if n < 0 then ("-" ++ core) else core

/-- The `{i:>2}` format: right-align in width 2. -/
def alignR2 (n : Nat) : String :=
  let str := toString n
  if str.length < 2 then (" " ++ str) else str

/-- One ranked line of the TOP section:
`f"{i:>2}. {name}  |  {km:.1f} km  |  {elev:.0f} m  |  {rides}회"`. -/
def rankLine (i : Nat) (r : Row) : String :=
  alignR2 i ++ ". " ++ r.name ++ "  |  " ++ fmt1 r.km ++ " km  |  " ++
    fmt0 r.elev ++ " m  |  " ++ toString r.rides ++ "회"

/-- The header line: the window start is labelled with the literal text
`(월)` and `end - 1 day` with the literal text `(일)` (both are plain
characters in the `strftime` format strings, not computed weekday names). -/
def headerLine (s e : Int) : String :=
  "🏁 지난주 클럽 랭킹 (" ++ (fmtMMDD s ++ "(월)") ++ " ~ " ++
    (fmtMMDD (e - usPerDay) ++ "(일)") ++ ")"

/-- The fixed legend line. -/
def legendLine : String := "📌 기준: 거리(km) / 획득고도(m) / 횟수"

/-- The sentence emitted when the leaderboard is empty. -/
def noActivityLine : String := "지난주 기록된 활동이 없어요 🥲"

/-- The trailing aggregate summary line, computed over the full leaderboard. -/
def summaryLine (leaderboard : List Row) : String :=
  "📊 전체 합계: " ++ fmt1 (leaderboard.map Row.km).sum ++ " km / " ++
    fmt0 (leaderboard.map Row.elev).sum ++ " m / " ++
    toString (leaderboard.map Row.rides).sum ++ "회 (참여 " ++
    toString leaderboard.length ++ "명)"

/-- The `lines` list built by `format_post_text` (the Python code accumulates
this list and joins it with newlines).  `top_n` models the `TOP_N`
environment configuration, default 20. -/
def format_post_lines (top_n : Nat) (start_kst end_kst : Int)
    (leaderboard : List Row) : List String :=
  let base := [headerLine start_kst end_kst, "", legendLine, ""]
  if leaderboard.isEmpty then
    base ++ [noActivityLine]
  else
    base ++ [("🏆 TOP " ++ toString (min top_n leaderboard.length))] ++
      ((leaderboard.take top_n).enum.map fun p => rankLine (p.1 + 1) p.2) ++
      [""] ++ [summaryLine leaderboard]

/-- `format_post_text`: the joined multi-line report. -/
def format_post_text (top_n : Nat) (start_kst end_kst : Int)
    (leaderboard : List Row) : String :=
  "\n".intercalate (format_post_lines top_n start_kst end_kst leaderboard)

/-- The `for page in range(1, max_pages + 1)` loop of `fetch_club_activities`
over the remaining page numbers: fetch the page's batch, record the request,
stop on an empty batch, otherwise extend the accumulator and continue.
`pages` is the server, mapping a page number to its batch; the second
component of the result is the log of issued page requests. -/
def fetch_go {α : Type} (pages : Nat → List α) :
    List Nat → List α → List Nat → List α × List Nat
  | [], acc, log => (acc, log)
  | p :: rest, acc, log =>
      let batch := pages p
      if batch.isEmpty then (acc, log ++ [p])
      else fetch_go pages rest (acc ++ batch) (log ++ [p])

/-- `fetch_club_activities`: paginate with 1-based page numbers up to
`max_pages` (default 10 in the source), concatenating batches until the first
empty batch or the page cap.  Returns the activities and the request log. -/
def fetch_club_activities {α : Type} (pages : Nat → List α) (max_pages : Nat) :
    List α × List Nat :=
  fetch_go pages (List.range' 1 max_pages) [] []

/-- The parsed JSON body of the BAND response; `result_code` is `none` when
the field is absent (`j.get("result_code")`). -/
structure BandJson where
  result_code : Option Int
deriving DecidableEq

/-- The final HTTP response of the BAND post: status code and parsed body. -/
structure BandResponse where
  status : Nat
  body : BandJson
deriving DecidableEq

/-- The error raised by `post_to_band`: either the `HTTPError` of
`raise_for_status`, or the `RuntimeError` carrying the full payload. -/
inductive BandError where
  | httpError (status : Nat)
  | apiError (body : BandJson)
deriving DecidableEq

/-- `post_to_band` on the final response: `raise_for_status` raises exactly
for statuses in [400, 600); then a `result_code` different from 1 raises a
`RuntimeError` carrying the payload; otherwise the parsed response is
returned. -/
def post_to_band (r : BandResponse) : Except BandError BandJson :=
  if 400 ≤ r.status ∧ r.status < 600 then Except.error (BandError.httpError r.status)
  else if r.body.result_code ≠ some 1 then Except.error (BandError.apiError r.body)
  else Except.ok r.body

/-- Whether the call raised. -/
def isFailure : Except BandError BandJson → Bool
  | Except.error _ => true
  | Except.ok _ => false

/-! ## Theorems -/

/-- C3: for every current KST timestamp, `last_week_range_kst` returns a pair
`(start, end)` where `end` is the most recent Monday at midnight (zero
time-of-day including microseconds) at or before `now`, and `start` is
exactly 7 days before `end`. -/
theorem last_week_range_kst_spec (now : Int) :
    (last_week_range_kst now).2 % usPerDay = 0 ∧
    weekdayOf (last_week_range_kst now).2 = 0 ∧
    (last_week_range_kst now).2 ≤ now ∧
    now - (last_week_range_kst now).2 < usPerWeek ∧
    (last_week_range_kst now).1 = (last_week_range_kst now).2 - usPerWeek ∧
    ∀ m : Int, m % usPerDay = 0 → weekdayOf m = 0 → m ≤ now →
      m ≤ (last_week_range_kst now).2 := by
  have he : (last_week_range_kst now).2
      = (now / usPerDay - now / usPerDay % 7) * usPerDay := by
    show zeroTime (now - weekdayOf now * usPerDay) = _
    unfold zeroTime weekdayOf usPerDay
    omega
  refine ⟨?_, ?_, ?_, ?_, rfl, ?_⟩
  · rw [he]; unfold usPerDay; omega
  · rw [he]; unfold weekdayOf usPerDay; omega
  · rw [he]; unfold usPerDay; omega
  · rw [he]; unfold usPerWeek usPerDay; omega
  · intro m h1 h2 h3
    rw [he]
    simp only [weekdayOf, usPerDay] at h1 h2 ⊢
    omega

/-- Concrete instance of `last_week_range_kst_spec`, discharging the
hypotheses of its maximality conjunct at `m = 0`. -/
theorem last_week_range_kst_spec_witness :
    (last_week_range_kst (10 * usPerDay + 5000)).2 ≤ 10 * usPerDay + 5000 ∧
    (0 : Int) ≤ (last_week_range_kst (10 * usPerDay + 5000)).2 := by
  have h := last_week_range_kst_spec (10 * usPerDay + 5000)
  exact ⟨h.2.2.1, h.2.2.2.2.2 0 (by decide) (by decide) (by decide)⟩

/-- C6 (claim as stated is false): a final HTTP status that is not 2xx does
not necessarily make `post_to_band` fail — `raise_for_status` only raises for
statuses in [400, 600), so a 302 response whose body has `result_code = 1`
succeeds, refuting "fails if and only if the HTTP response is non-2xx or
result_code ≠ 1". -/
theorem post_to_band_claim_cex :
    ¬ ∀ r : BandResponse,
      (isFailure (post_to_band r) = true ↔
        (¬(200 ≤ r.status ∧ r.status ≤ 299) ∨ r.body.result_code ≠ some 1)) := by
  intro h
  have h3 : isFailure (post_to_band ⟨302, ⟨some 1⟩⟩) = true :=
    (h ⟨302, ⟨some 1⟩⟩).mpr (Or.inl (by decide))
  have h4 : isFailure (post_to_band ⟨302, ⟨some 1⟩⟩) = false := rfl
  rw [h4] at h3
  exact Bool.noConfusion h3

/-- C6 (amended): `post_to_band` fails if and only if the HTTP status is a
4xx or 5xx (the statuses `raise_for_status` raises for) or the response's
`result_code` field differs from 1 (including when it is absent); when it
does not fail it returns the parsed response. -/
theorem post_to_band_spec (r : BandResponse) :
    (isFailure (post_to_band r) = true ↔
      ((400 ≤ r.status ∧ r.status < 600) ∨ r.body.result_code ≠ some 1)) ∧
    (¬(400 ≤ r.status ∧ r.status < 600) → r.body.result_code = some 1 →
      post_to_band r = Except.ok r.body) := by
  unfold post_to_band
  constructor
  · split_ifs with h1 h2 <;> simp_all [isFailure]
  · intro h1 h2
    split_ifs with h3 <;> simp_all

/-- Concrete instance of `post_to_band_spec`: a 2xx response with
`result_code = 1` succeeds, and a 2xx response with `result_code = 0`
fails. -/
theorem post_to_band_spec_witness :
    post_to_band ⟨200, ⟨some 1⟩⟩ = Except.ok ⟨some 1⟩ ∧
    isFailure (post_to_band ⟨200, ⟨some 0⟩⟩) = true := by
  refine ⟨(post_to_band_spec ⟨200, ⟨some 1⟩⟩).2 (by decide) rfl, ?_⟩
  exact (post_to_band_spec ⟨200, ⟨some 0⟩⟩).1.mpr (Or.inr (by decide))

/-- Behaviour of the fetch loop on a tail of consecutive page numbers: some
`k ≤ n` pages are requested consecutively, every requested page before the
last one had a nonempty batch, an early stop is due to an empty batch at the
last requested page, and the accumulator is extended by the concatenation of
the requested batches. -/
lemma fetch_go_spec {α : Type} (pages : Nat → List α) :
    ∀ (n s : Nat) (acc : List α) (log : List Nat),
      ∃ k, k ≤ n ∧ (0 < n → 0 < k) ∧
        (fetch_go pages (List.range' s n) acc log).2 = log ++ List.range' s k ∧
        (∀ j, j + 1 < k → pages (s + j) ≠ []) ∧
        (k < n → pages (s + k - 1) = []) ∧
        (fetch_go pages (List.range' s n) acc log).1
          = acc ++ (List.range' s k).flatMap pages := by
  intro n
  induction n with
  | zero =>
      intro s acc log
      exact ⟨0, by simp [fetch_go, List.range']⟩
  | succ n ih =>
      intro s acc log
      rw [List.range'_succ]
      by_cases hb : (pages s).isEmpty
      · have hempty : pages s = [] := List.isEmpty_iff.mp hb
        refine ⟨1, by omega, fun _ => by omega, ?_, ?_, ?_, ?_⟩
        · simp [fetch_go, hb, List.range'_succ, List.range']
        · intro j hj
          omega
        · intro _
          simpa using hempty
        · simp [fetch_go, hb, List.range'_succ, List.range', hempty]
      · obtain ⟨k, hk, hpos, hlog, hne, hstop, hacc⟩ := ih (s + 1) (acc ++ pages s) (log ++ [s])
        have hstep : fetch_go pages (s :: List.range' (s + 1) n) acc log
            = fetch_go pages (List.range' (s + 1) n) (acc ++ pages s) (log ++ [s]) := by
          simp [fetch_go, hb]
        refine ⟨k + 1, by omega, fun _ => by omega, ?_, ?_, ?_, ?_⟩
        · rw [hstep, hlog, List.range'_succ]
          simp
        · intro j hj
          match j with
          | 0 =>
              intro hc
              have hc2 : pages s = [] := by simpa using hc
              exact hb (by simp [hc2])
          | j + 1 =>
              have := hne j (by omega)
              simpa [Nat.add_assoc, Nat.add_comm 1 j] using this
        · intro hlt
          have hkn : k < n := by omega
          have hk1 : 0 < k := hpos (by omega)
          have harg : s + (k + 1) - 1 = s + 1 + k - 1 := by omega
          rw [harg]
          exact hstop hkn
        · rw [hstep, hacc, List.range'_succ, List.flatMap_cons, List.append_assoc]

/-- C9: `fetch_club_activities` issues at most `max_pages` requests, with
consecutive 1-based page numbers; all pages requested before the last one
returned nonempty batches; if it stopped before the page cap then the last
requested page's batch was empty; and the result is the concatenation, in
fetch order, of the fetched batches. -/
theorem fetch_club_activities_spec {α : Type} (pages : Nat → List α) (max_pages : Nat) :
    (fetch_club_activities pages max_pages).2.length ≤ max_pages ∧
    (fetch_club_activities pages max_pages).2
      = List.range' 1 (fetch_club_activities pages max_pages).2.length ∧
    (∀ p, 1 ≤ p → p < (fetch_club_activities pages max_pages).2.length →
      pages p ≠ []) ∧
    ((fetch_club_activities pages max_pages).2.length < max_pages →
      pages (fetch_club_activities pages max_pages).2.length = []) ∧
    (fetch_club_activities pages max_pages).1
      = (List.range' 1 (fetch_club_activities pages max_pages).2.length).flatMap pages := by
  obtain ⟨k, hk, hpos, hlog, hne, hstop, hacc⟩ := fetch_go_spec pages max_pages 1 [] []
  unfold fetch_club_activities
  have hlen : (fetch_go pages (List.range' 1 max_pages) [] []).2.length = k := by
    rw [hlog]
    simp [List.length_range']
  rw [hlen, hlog, hacc]
  refine ⟨hk, by simp, ?_, ?_, by simp⟩
  · intro p hp1 hpk
    have h5 := hne (p - 1) (by omega)
    have harg : 1 + (p - 1) = p := by omega
    rwa [harg] at h5
  · intro hlt
    have hk1 : 0 < k := by
      rcases Nat.eq_zero_or_pos max_pages with h | h
      · omega
      · exact hpos h
    have h6 := hstop hlt
    have harg : 1 + k - 1 = k := by omega
    rwa [harg] at h6

/-- A concrete three-page server for the fetch witness: pages 1 and 2 are
nonempty, page 3 is the first empty page. -/
def pagesW : Nat → List Nat := fun p => if p ≤ 2 then [p] else []

/-- Concrete instance of `fetch_club_activities_spec`: with `pagesW` and the
default cap 10, the fetch requests pages 1, 2, 3, stops at the empty page 3,
and returns the two nonempty batches concatenated. -/
theorem fetch_club_activities_spec_witness :
    pagesW 2 ≠ [] ∧ pagesW 3 = [] ∧
    (fetch_club_activities pagesW 10).1 = [1, 2] ∧
    (fetch_club_activities pagesW 10).2 = [1, 2, 3] := by
  have h := fetch_club_activities_spec pagesW 10
  refine ⟨h.2.2.1 2 (by decide) (by decide), ?_, by decide, by decide⟩
  simpa using h.2.2.2.1 (by decide)

/-- Lookup distributes over append: the first list wins when it has the key. -/
lemma lookupA_append (m l : List (Option Int × Agg)) (k : Option Int) :
    lookupA (m ++ l) k = (lookupA m k).or (lookupA l k) := by
  induction m with
  | nil => simp [lookupA]
  | cons p rest ih =>
      obtain ⟨k1, v1⟩ := p
      by_cases h : k1 = k
      · simp [lookupA, h]
      · simp [lookupA, h, ih]

/-- Lookup after an in-place update: the updated key maps to the new value
exactly when it was present; other keys are untouched. -/
lemma lookupA_updateA (m : List (Option Int × Agg)) (kk k : Option Int) (w : Agg) :
    lookupA (updateA m kk w) k =
      if kk = k then (lookupA m k).map (fun _ => w) else lookupA m k := by
  induction m with
  | nil => simp [lookupA, updateA]
  | cons p rest ih =>
      obtain ⟨k1, v1⟩ := p
      simp only [updateA]
      by_cases h1 : k1 = kk
      · simp only [if_pos h1]
        by_cases h2 : kk = k
        · have h3 : k1 = k := h1.trans h2
          simp [lookupA, h3, h2]
        · have h3 : ¬ k1 = k := by rw [h1]; exact h2
          simp [lookupA, h3, h2]
      · simp only [if_neg h1]
        by_cases h2 : k1 = k
        · have h4 : ¬ kk = k := fun hc => h1 (h2.trans hc.symm)
          simp [lookupA, h2, h4]
        · simp [lookupA, h2, ih]

/-- A successful lookup exhibits a member of the association list. -/
lemma lookupA_mem {m : List (Option Int × Agg)} {k : Option Int} {v : Agg}
    (h : lookupA m k = some v) : (k, v) ∈ m := by
  induction m with
  | nil => simp [lookupA] at h
  | cons p rest ih =>
      obtain ⟨k1, v1⟩ := p
      by_cases h1 : k1 = k
      · subst h1
        simp [lookupA] at h
        subst h
        exact List.mem_cons_self _ _
      · simp [lookupA, h1] at h
        exact List.mem_cons_of_mem _ (ih h)

/-- Effect of one loop iteration on the aggregate of a key: an in-window
activity of that key either creates the entry (capturing its display name) or
adds its distance, elevation and one ride; everything else is untouched. -/
lemma aggStep_lookupA (s e : Int) (m : List (Option Int × Agg)) (a : Activity)
    (k : Option Int) :
    lookupA (aggStep s e m a) k =
      if inWindow s e a = true ∧ athleteKey a = k then
        match lookupA m k with
        | none => some ⟨athleteDisplayName a, distOf a, elevOf a, 1⟩
        | some v => some ⟨v.name, v.dist_m + distOf a, v.elev_m + elevOf a, v.rides + 1⟩
      else lookupA m k := by
  unfold aggStep
  by_cases hw : inWindow s e a
  · by_cases hk : athleteKey a = k
    · subst hk
      cases hm : lookupA m (athleteKey a) with
      | none => simp [hw, hm, lookupA_append, lookupA]
      | some v => simp [hw, hm, lookupA_updateA]
    · cases hm : lookupA m (athleteKey a) with
      | none => simp [hw, hm, hk, lookupA_append, lookupA]
      | some v => simp [hw, hm, hk, lookupA_updateA]
  · simp [hw]

/-- Unfolding of the contributing-activities filter on a cons cell. -/
lemma contrib_cons (s e : Int) (k : Option Int) (a : Activity) (acts : List Activity) :
    contrib s e k (a :: acts) =
      if inWindow s e a = true ∧ athleteKey a = k then a :: contrib s e k acts
      else contrib s e k acts := by
  by_cases h1 : inWindow s e a = true
  · by_cases h2 : athleteKey a = k <;> simp [contrib, List.filter_cons, h1, h2]
  · simp [contrib, List.filter_cons, h1]

/-- Characterisation of the aggregation fold at a key: starting from any
partial dictionary, the key's final aggregate adds the sums of the
contributing activities; when the key is fresh, its entry exists exactly when
some activity contributes, carries the first contributor's display name, and
holds the contributors' sums and count. -/
lemma lookupA_foldl_aggStep (s e : Int) (k : Option Int) :
    ∀ (acts : List Activity) (m : List (Option Int × Agg)),
      lookupA (acts.foldl (aggStep s e) m) k =
        match lookupA m k with
        | some v => some ⟨v.name, v.dist_m + ((contrib s e k acts).map distOf).sum,
            v.elev_m + ((contrib s e k acts).map elevOf).sum,
            v.rides + (contrib s e k acts).length⟩
        | none => (contrib s e k acts).head?.map fun a0 =>
            ⟨athleteDisplayName a0, ((contrib s e k acts).map distOf).sum,
              ((contrib s e k acts).map elevOf).sum, (contrib s e k acts).length⟩ := by
  intro acts
  induction acts with
  | nil =>
      intro m
      cases hm : lookupA m k <;> simp [contrib, hm]
  | cons a acts ih =>
      intro m
      rw [List.foldl_cons, ih (aggStep s e m a), aggStep_lookupA, contrib_cons]
      by_cases hc : inWindow s e a = true ∧ athleteKey a = k
      · simp only [if_pos hc]
        cases hm : lookupA m k with
        | none =>
            simp only [List.map_cons, List.sum_cons, List.length_cons, List.head?_cons,
              Option.map_some']
            refine congrArg some ?_
            simp only [Agg.mk.injEq]
            refine ⟨trivial, trivial, trivial, by omega⟩
        | some v =>
            simp only [List.map_cons, List.sum_cons, List.length_cons]
            refine congrArg some ?_
            simp only [Agg.mk.injEq]
            refine ⟨trivial, by ring, by ring, by omega⟩
      · simp only [if_neg hc]

/-- Activities outside the window are skipped by the aggregation fold. -/
lemma foldl_aggStep_filter (s e : Int) :
    ∀ (acts : List Activity) (m : List (Option Int × Agg)),
      (acts.filter (inWindow s e)).foldl (aggStep s e) m = acts.foldl (aggStep s e) m := by
  intro acts
  induction acts with
  | nil => intro m; rfl
  | cons a acts ih =>
      intro m
      by_cases hw : inWindow s e a = true
      · rw [List.filter_cons, if_pos hw, List.foldl_cons, List.foldl_cons, ih]
      · rw [List.filter_cons, if_neg hw, List.foldl_cons, ih]
        have hstep : aggStep s e m a = m := by
          unfold aggStep
          rw [if_neg hw]
        rw [hstep]

/-- C2: `build_leaderboard` aggregates exactly the activities whose start
time converted to KST lies in the half-open window `[start, end)`: restricting
the input to the in-window activities does not change the output; the window
test is that bound; an activity whose converted time equals `start` is
included (for a nonempty window) and one whose converted time equals `end` is
excluded; and every contributing activity passes the window test. -/
theorem build_leaderboard_window_iff (acts : List Activity) (s e : Int) (a : Activity) :
    build_leaderboard acts s e = build_leaderboard (acts.filter (inWindow s e)) s e ∧
    (inWindow s e a = true ↔ (s ≤ to_kst a.start_date ∧ to_kst a.start_date < e)) ∧
    (to_kst a.start_date = s → s < e → inWindow s e a = true) ∧
    (to_kst a.start_date = e → inWindow s e a = false) ∧
    (∀ k : Option Int, ∀ a2 ∈ contrib s e k acts, inWindow s e a2 = true) := by
  refine ⟨?_, ?_, ?_, ?_, ?_⟩
  · unfold build_leaderboard aggregate
    rw [foldl_aggStep_filter]
  · simp [inWindow]
  · intro h1 h2
    simp [inWindow, h1, h2]
  · intro h1
    simp [inWindow, h1]
  · intro k a2 h2
    have hp := (List.mem_filter.mp h2).2
    exact (Bool.and_eq_true _ _ |>.mp hp).1

/-- An activity whose converted start time is exactly the window start. -/
def wActS : Activity := ⟨-kstOffset, none, none, none⟩

/-- An activity whose converted start time is exactly the window end. -/
def wActE : Activity := ⟨usPerDay - kstOffset, none, none, none⟩

/-- Concrete instance of `build_leaderboard_window_iff` on the window
`[0, usPerDay)`: the boundary activity at the start is included, the one at
the end is excluded. -/
theorem build_leaderboard_window_iff_witness :
    inWindow 0 usPerDay wActS = true ∧ inWindow 0 usPerDay wActE = false := by
  have h1 := (build_leaderboard_window_iff [] 0 usPerDay wActS).2.2.1
  have h2 := (build_leaderboard_window_iff [] 0 usPerDay wActE).2.2.2.1
  exact ⟨h1 (by decide) (by decide), h2 (by decide)⟩

/-- The sort relation holds exactly when the first row's composite key
`(km, elev)` is lexicographically at least the second's. -/
lemma rowLe_iff (r1 r2 : Row) :
    rowLe r1 r2 = true ↔ (r2.km < r1.km ∨ (r1.km = r2.km ∧ r2.elev ≤ r1.elev)) := by
  simp [rowLe]

/-- Transitivity of the sort relation. -/
lemma rowLe_trans : ∀ (a b c : Row), rowLe a b = true → rowLe b c = true → rowLe a c = true := by
  intro a b c h1 h2
  rw [rowLe_iff] at h1 h2 ⊢
  rcases h1 with h1 | ⟨h1, h1e⟩ <;> rcases h2 with h2 | ⟨h2, h2e⟩
  · exact Or.inl (lt_trans h2 h1)
  · exact Or.inl (h2 ▸ h1)
  · exact Or.inl (by rw [h1]; exact h2)
  · exact Or.inr ⟨h1.trans h2, le_trans h2e h1e⟩

/-- Totality of the sort relation. -/
lemma rowLe_total : ∀ (a b : Row), (rowLe a b || rowLe b a) = true := by
  intro a b
  simp only [Bool.or_eq_true, rowLe_iff]
  rcases lt_trichotomy a.km b.km with h | h | h
  · exact Or.inr (Or.inl h)
  · rcases le_total a.elev b.elev with h2 | h2
    · exact Or.inr (Or.inr ⟨h.symm, h2⟩)
    · exact Or.inl (Or.inr ⟨h, h2⟩)
  · exact Or.inl (Or.inl h)

/-- C1: for every input activity sequence and window, consecutive rows of
`build_leaderboard` are in descending lexicographic order of the composite
key: either the first row has strictly more km, or equal km and at least the
elevation of the second. -/
theorem build_leaderboard_sorted (acts : List Activity) (s e : Int) :
    (build_leaderboard acts s e).Chain'
      (fun r1 r2 => r2.km < r1.km ∨ (r1.km = r2.km ∧ r2.elev ≤ r1.elev)) := by
  have hp := List.sorted_mergeSort rowLe_trans rowLe_total
      ((aggregate acts s e).map (fun p => rowOfAgg p.2))
  exact (hp.imp (fun h => (rowLe_iff _ _).mp h)).chain'

/-- C7 (claim as stated is false): the program accumulates each athlete's
sums with IEEE-double addition, which is not associative, so permuting the
input can change the accumulated value.  Concretely: three in-window
activities of athlete 1 with distances `2^53`, `1`, `1` metres — all three
are contributing activities of both orders, yet replaying the program's
`dist_m` accumulation with correctly rounded binary64 addition gives
`2^53` in one order (each `+ 1` rounds back down, ties to even) and
`2^53 + 2` in the rotated order (the two 1s add exactly first). -/
theorem aggregate_perm_claim_cex :
    [actF1, actF2, actF3].Perm [actF2, actF3, actF1] ∧
    contrib 0 usPerWeek (some 1) [actF1, actF2, actF3] = [actF1, actF2, actF3] ∧
    contrib 0 usPerWeek (some 1) [actF2, actF3, actF1] = [actF2, actF3, actF1] ∧
    b64Sum ([actF1, actF2, actF3].map distUnits) = 9007199254740992 ∧
    b64Sum ([actF2, actF3, actF1].map distUnits) = 9007199254740994 ∧
    b64Sum ([actF1, actF2, actF3].map distUnits)
      ≠ b64Sum ([actF2, actF3, actF1].map distUnits) := by
  refine ⟨?_, by decide, by decide, by decide, by decide, by decide⟩
  exact (List.Perm.swap actF2 actF1 [actF3]).trans
    (List.Perm.cons actF2 (List.Perm.swap actF3 actF1 []))

/-- C7 (amended): permuting the input activity sequence leaves every
athlete's multiset of contributing activities unchanged, hence the activity
counts are identical and the aggregated distance and elevation sums are
identical as exact values; the program's IEEE-double accumulations agree
whenever the additions are exact, but can differ by rounding reassociation. -/
theorem aggregate_perm_stats (s e : Int) {acts1 acts2 : List Activity}
    (hp : acts1.Perm acts2) (k : Option Int) :
    (contrib s e k acts1).Perm (contrib s e k acts2) ∧
    statsAt s e acts1 k = statsAt s e acts2 k := by
  have hc : (contrib s e k acts1).Perm (contrib s e k acts2) := hp.filter _
  refine ⟨hc, ?_⟩
  unfold statsAt aggregate
  rw [lookupA_foldl_aggStep, lookupA_foldl_aggStep]
  simp only [lookupA]
  cases h1 : contrib s e k acts1 with
  | nil =>
      have h2 : contrib s e k acts2 = [] := List.Perm.eq_nil ((h1 ▸ hc).symm)
      rw [h2]
  | cons a0 t1 =>
      cases h2 : contrib s e k acts2 with
      | nil =>
          rw [h1, h2] at hc
          have h3 := List.Perm.eq_nil hc
          simp at h3
      | cons b0 t2 =>
          rw [h1, h2] at hc
          have hd := List.Perm.sum_eq (hc.map distOf)
          have hg := List.Perm.sum_eq (hc.map elevOf)
          have hl := hc.length_eq
          simp only [List.head?_cons, Option.map_some']
          rw [hd, hg, hl]

/-- Two in-window activities of the same athlete, for the permutation witness. -/
def actW1 : Activity := ⟨0, some ⟨some 1, none, none⟩, some 1000, some 5⟩

/-- Second witness activity of the same athlete. -/
def actW2 : Activity := ⟨0, some ⟨some 1, none, none⟩, some 500, none⟩

/-- Concrete instance of `aggregate_perm_stats`: swapping the two activities
permutes athlete 1's contributions and leaves the exact sums
`(1500 m, 5 m, 2 rides)` unchanged. -/
theorem aggregate_perm_stats_witness :
    (contrib 0 usPerWeek (some 1) [actW1, actW2]).Perm
      (contrib 0 usPerWeek (some 1) [actW2, actW1]) ∧
    statsAt 0 usPerWeek [actW1, actW2] (some 1) = statsAt 0 usPerWeek [actW2, actW1] (some 1) ∧
    statsAt 0 usPerWeek [actW1, actW2] (some 1) = some (1500, 5, 2) := by
  have h := aggregate_perm_stats 0 usPerWeek (List.Perm.swap actW2 actW1 []) (some 1)
  refine ⟨h.1, h.2, ?_⟩
  norm_num [statsAt, aggregate, aggStep, inWindow, to_kst, kstOffset, usPerWeek, usPerDay,
    athleteKey, actW1, actW2, lookupA, updateA, distOf, elevOf]

/-- C10: when some in-window activity lacks an athlete id, `build_leaderboard`
still produces an ordinary row for the grouping key `none`, pooling all such
activities: the row carries the first such contributor's display name and the
pooled sums and count, and when the contributor's trimmed name is empty the
display name is the fallback `"athlete_None"`. -/
theorem build_leaderboard_missing_athlete (s e : Int) (acts : List Activity) (a0 : Activity)
    (h : (contrib s e none acts).head? = some a0) :
    ∃ r, r ∈ build_leaderboard acts s e ∧
      r.name = athleteDisplayName a0 ∧
      r.km = ((contrib s e none acts).map distOf).sum / 1000 ∧
      r.elev = ((contrib s e none acts).map elevOf).sum ∧
      r.rides = (contrib s e none acts).length ∧
      (rawNameOf a0 = "" → r.name = "athlete_None") := by
  have hkey : athleteKey a0 = none := by
    have hmem : a0 ∈ contrib s e none acts :=
      List.mem_of_mem_head? (Option.mem_def.mpr h)
    have hp := (List.mem_filter.mp hmem).2
    simp only [Bool.and_eq_true, decide_eq_true_eq] at hp
    exact hp.2
  have hlook : lookupA (aggregate acts s e) none =
      some ⟨athleteDisplayName a0, ((contrib s e none acts).map distOf).sum,
        ((contrib s e none acts).map elevOf).sum, (contrib s e none acts).length⟩ := by
    unfold aggregate
    rw [lookupA_foldl_aggStep]
    simp only [lookupA]
    rw [h]
    rfl
  have hmem2 := lookupA_mem hlook
  refine ⟨rowOfAgg ⟨athleteDisplayName a0, ((contrib s e none acts).map distOf).sum,
    ((contrib s e none acts).map elevOf).sum, (contrib s e none acts).length⟩,
    ?_, rfl, rfl, rfl, rfl, ?_⟩
  · apply List.mem_mergeSort.mpr
    exact List.mem_map_of_mem (fun p => rowOfAgg p.2) hmem2
  · intro hraw
    show athleteDisplayName a0 = "athlete_None"
    unfold athleteDisplayName
    rw [if_pos hraw, hkey]
    rfl

/-- An in-window activity with no athlete object at all. -/
def actWNoId : Activity := ⟨0, none, some 3000, none⟩

/-- Concrete instance of `build_leaderboard_missing_athlete`: the single
id-less activity yields a row named `"athlete_None"`. -/
theorem build_leaderboard_missing_athlete_witness :
    (contrib 0 usPerWeek none [actWNoId]).head? = some actWNoId ∧
    (∃ r, r ∈ build_leaderboard [actWNoId] 0 usPerWeek ∧
      r.name = athleteDisplayName actWNoId ∧
      r.km = ((contrib 0 usPerWeek none [actWNoId]).map distOf).sum / 1000 ∧
      r.elev = ((contrib 0 usPerWeek none [actWNoId]).map elevOf).sum ∧
      r.rides = (contrib 0 usPerWeek none [actWNoId]).length ∧
      (rawNameOf actWNoId = "" → r.name = "athlete_None")) := by
  have hc : (contrib 0 usPerWeek none [actWNoId]).head? = some actWNoId := by
    norm_num [contrib, inWindow, to_kst, kstOffset, usPerWeek, usPerDay, athleteKey,
      actWNoId, List.filter]
  exact ⟨hc, build_leaderboard_missing_athlete 0 usPerWeek [actWNoId] actWNoId hc⟩

/-- The header line always begins with the chequered-flag character. -/
lemma headerLine_data (s e : Int) : (headerLine s e).data.head? = some '🏁' := by
  rfl

/-- C4: on an empty leaderboard the report is the joined line list, whose last
line is the single "no activity" sentence; the list has exactly the four
header lines plus that sentence, and no line is a TOP-section header (which
starts with 🏆) or an aggregate summary line (which starts with 📊). -/
theorem format_post_text_empty (top_n : Nat) (s e : Int) :
    format_post_text top_n s e [] = "\n".intercalate (format_post_lines top_n s e []) ∧
    (format_post_lines top_n s e []).getLast? = some noActivityLine ∧
    (format_post_lines top_n s e []).count noActivityLine = 1 ∧
    (format_post_lines top_n s e []).length = 5 ∧
    ∀ l ∈ format_post_lines top_n s e [],
      l.data.head? ≠ some '🏆' ∧ l.data.head? ≠ some '📊' := by
  have hL : format_post_lines top_n s e []
      = [headerLine s e, "", legendLine, "", noActivityLine] := rfl
  have hne : headerLine s e ≠ noActivityLine := by
    intro hcon
    have h2 : (headerLine s e).data.head? = noActivityLine.data.head? :=
      congrArg (fun t => t.data.head?) hcon
    rw [headerLine_data] at h2
    exact absurd h2 (by decide)
  refine ⟨rfl, by rw [hL]; rfl, ?_, by rw [hL]; rfl, ?_⟩
  · rw [hL]
    have h3 : ("" : String) ≠ noActivityLine := by decide
    have h4 : legendLine ≠ noActivityLine := by decide
    simp [List.count_cons, hne, h3, h4]
  · rw [hL]
    intro l hl
    simp only [List.mem_cons, List.not_mem_nil, or_false] at hl
    rcases hl with rfl | rfl | rfl | rfl | rfl
    · constructor
      · rw [headerLine_data]; decide
      · rw [headerLine_data]; decide
    · exact ⟨by decide, by decide⟩
    · exact ⟨by decide, by decide⟩
    · exact ⟨by decide, by decide⟩
    · exact ⟨by decide, by decide⟩

/-- Concrete instance of `format_post_text_empty` on the window
`[0, usPerWeek)`, discharging its line-membership hypothesis at the
"no activity" sentence itself. -/
theorem format_post_text_empty_witness :
    noActivityLine ∈ format_post_lines 20 0 usPerWeek [] ∧
    (format_post_lines 20 0 usPerWeek []).getLast? = some noActivityLine ∧
    noActivityLine.data.head? ≠ some '🏆' := by
  have h := format_post_text_empty 20 0 usPerWeek
  have hmem : noActivityLine ∈ format_post_lines 20 0 usPerWeek [] := by decide
  exact ⟨hmem, h.2.1, (h.2.2.2.2 noActivityLine hmem).1⟩

/-- C5: on a nonempty leaderboard the last line of the report is the summary
line, and the summary reports the km sum, elevation sum, ride-count sum and
participant count of the full leaderboard sequence (not the top-N slice shown
in the ranking section). -/
theorem format_post_text_totals (top_n : Nat) (s e : Int) (lb : List Row) (h : lb ≠ []) :
    (format_post_lines top_n s e lb).getLast? = some (summaryLine lb) ∧
    summaryLine lb = "📊 전체 합계: " ++ fmt1 (lb.map Row.km).sum ++ " km / " ++
      fmt0 (lb.map Row.elev).sum ++ " m / " ++ toString (lb.map Row.rides).sum ++
      "회 (참여 " ++ toString lb.length ++ "명)" := by
  refine ⟨?_, rfl⟩
  unfold format_post_lines
  have hni : lb.isEmpty = false := List.isEmpty_eq_false.mpr h
  rw [if_neg (by simp [hni])]
  rw [List.getLast?_concat]

/-- A two-row leaderboard for the summary witness; with `top_n = 1` only the
first row is ranked, yet the summary covers both rows. -/
def lbW : List Row := [⟨"a", 2, 5, 1⟩, ⟨"b", 1, 25, 2⟩]

/-- Concrete instance of `format_post_text_totals` with a truncating
`top_n = 1`. -/
theorem format_post_text_totals_witness :
    lbW ≠ [] ∧
    (format_post_lines 1 0 usPerWeek lbW).getLast? = some (summaryLine lbW) := by
  refine ⟨by simp [lbW], ?_⟩
  exact (format_post_text_totals 1 0 usPerWeek lbW (by simp [lbW])).1

/-- C8 (claim as stated is false): the header's weekday labels are the
literal texts `(월)` and `(일)`, not the actual weekdays of the two dates.
On the window starting at day 1 (0001-01-02, a Tuesday) and ending at day 8,
the actual header differs from the claimed header built with the true
weekday abbreviations (which would read `(화)` and `(월)`). -/
theorem format_header_weekday_cex :
    (format_post_lines 20 usPerDay (8 * usPerDay) []).head?
      = some (headerLine usPerDay (8 * usPerDay)) ∧
    headerLine usPerDay (8 * usPerDay) ≠
      "🏁 지난주 클럽 랭킹 (" ++ (fmtMMDD usPerDay ++ ("(" ++ weekdayAbbrev usPerDay ++ ")"))
        ++ " ~ " ++ (fmtMMDD (8 * usPerDay - usPerDay)
        ++ ("(" ++ weekdayAbbrev (8 * usPerDay - usPerDay) ++ ")")) ++ ")" := by
  exact ⟨rfl, by decide⟩

/-- C8 (amended): the first line of every report names the date range as
`MM/DD` of the window start and of `end` minus one day, each followed by the
literal weekday labels `(월)` and `(일)`; these literal labels agree with the
actual weekdays exactly when the start falls on a Monday and `end - 1 day` on
a Sunday, as is the case for windows produced by `last_week_range_kst`. -/
theorem format_header_spec (top_n : Nat) (s e : Int) (lb : List Row) :
    (format_post_lines top_n s e lb).head? = some (headerLine s e) ∧
    headerLine s e = "🏁 지난주 클럽 랭킹 (" ++ (fmtMMDD s ++ "(월)") ++ " ~ " ++
      (fmtMMDD (e - usPerDay) ++ "(일)") ++ ")" ∧
    (weekdayOf s = 0 → weekdayAbbrev s = "월") ∧
    (weekdayOf (e - usPerDay) = 6 → weekdayAbbrev (e - usPerDay) = "일") := by
  refine ⟨?_, rfl, ?_, ?_⟩
  · unfold format_post_lines
    split <;> rfl
  · intro h1
    unfold weekdayAbbrev
    rw [h1]
    decide
  · intro h1
    unfold weekdayAbbrev
    rw [h1]
    decide

/-- Concrete instance of `format_header_spec` on the Monday-aligned window
`[0, 7 days)`. -/
theorem format_header_spec_witness :
    weekdayAbbrev 0 = "월" ∧ weekdayAbbrev (7 * usPerDay - usPerDay) = "일" ∧
    (format_post_lines 20 0 (7 * usPerDay) []).head? = some (headerLine 0 (7 * usPerDay)) := by
  have h := format_header_spec 20 0 (7 * usPerDay) []
  exact ⟨h.2.2.1 (by decide), h.2.2.2 (by decide), h.1⟩

end WeeklyReport
